import Mathlib

/-!
Verification of easyto-init against its specification.

Shallow embedding of the Rust sources of the init program: environment
name/value lists and their merge (src/vmspec.rs), the retry backoff
(src/backoff.rs), the root-volume sector arithmetic (src/system.rs),
recursive-mkdir prefix enumeration (src/fs.rs), interface-name
classification (src/network.rs), login database lookup (src/login.rs),
the VmSpec user-data merge and mount defaulting (src/vmspec.rs),
subprocess handling in init steps (src/system.rs, src/init.rs,
src/vmspec.rs), and the DHCP receive loop (src/dhcp.rs).

Machine integers are modelled as Nat or Int with explicit bounds where
overflow matters; fallible operations return Option or Except; I/O
effects are passed in as explicit outcome values.
-/

set_option autoImplicit false

namespace EasytoInit

/-! ## Environment name/value lists (src/vmspec.rs) -/

/-- Embedding of struct NameValue of src/vmspec.rs. -/
structure NameValue where
  name : String
  value : String
deriving DecidableEq, Repr

/-- Embedding of type NameValues = Vec of NameValue. -/
abbrev NameValues := List NameValue

/-- Embedding of NameValuesExt::find (src/vmspec.rs lines 487-494):
return a copy of the first entry whose name equals the key. -/
def NameValues.find : NameValues → String → Option NameValue
  | [], _ => none
  | nv :: rest, key => if nv.name = key then some nv else NameValues.find rest key

/-- Embedding of NameValuesExt::merge (src/vmspec.rs lines 502-513):
push the entries of self whose name is not found in other, then push
every entry of other. -/
def NameValues.merge : NameValues → NameValues → NameValues
  | [], other => other
  | nv :: rest, other =>
    if (NameValues.find other nv.name).isNone then
      nv :: NameValues.merge rest other
    else
      NameValues.merge rest other

/-- Embedding of NameValuesExt::to_env_strings (src/vmspec.rs lines
496-500): format each entry as name=value. -/
def NameValues.to_env_strings (nvs : NameValues) : List String :=
  nvs.map (fun nv => nv.name ++ "=" ++ nv.value)

/-- Embedding of StringSliceExt::to_name_values (src/vmspec.rs lines
536-548) on a single string: splitn(2, =) yields the part before the
first equals sign as the name and the remainder as the value; both
default to the empty string when missing. -/
def to_name_value (s : String) : NameValue :=
  let cs := s.data
  let namePart := cs.takeWhile (fun c => c ≠ '=')
  let rest := cs.dropWhile (fun c => c ≠ '=')
  { name := String.mk namePart, value := String.mk rest.tail }

/-- Embedding of StringSliceExt::to_name_values on a vector of strings. -/
def to_name_values (ss : List String) : NameValues :=
  ss.map to_name_value

/-! ## Retry backoff (src/backoff.rs) -/

/-- Largest value of a Rust u64. -/
def u64Max : Nat := 2 ^ 64 - 1

/-- Largest value of a Rust u32. -/
def u32Max : Nat := 2 ^ 32 - 1

/-- Rust u64::saturating_mul: the product, saturating at u64::MAX. -/
def saturatingMul64 (a b : Nat) : Nat := min (a * b) u64Max

/-- Embedding of struct RetryBackoff (src/backoff.rs): attempt is a
u32, base_ms and cap_ms are u64 millisecond counts. -/
structure RetryBackoff where
  attempt : Nat
  base_ms : Nat
  cap_ms : Nat
deriving DecidableEq, Repr

/-- Embedding of RetryBackoff::new: attempt 0, base 100 ms, given cap. -/
def RetryBackoff.new (cap_ms : Nat) : RetryBackoff :=
  { attempt := 0, base_ms := 100, cap_ms := cap_ms }

/-- Ceiling on the random sleep computed by RetryBackoff::wait
(src/backoff.rs lines 23-30): shift = attempt.min(63), so 1u64 << shift
never overflows and equals 2 ^ shift; the doubled base saturates at
u64::MAX. -/
def RetryBackoff.maxWait (b : RetryBackoff) : Nat :=
  let shift := min b.attempt 63
  min b.cap_ms (saturatingMul64 b.base_ms (2 ^ shift))

/-- Sleep duration chosen by RetryBackoff::wait given the random draw r
from the operating system generator: r % max_wait when max_wait is
positive, otherwise 0. -/
def RetryBackoff.waitMs (b : RetryBackoff) (r : Nat) : Nat :=
  if 0 < b.maxWait then r % b.maxWait else 0

/-- State update performed at the end of RetryBackoff::wait
(src/backoff.rs line 32): attempt = attempt.saturating_add(1). -/
def RetryBackoff.step (b : RetryBackoff) : RetryBackoff :=
  { b with attempt := min (b.attempt + 1) u32Max }

/-! ## Root-volume sector arithmetic (src/system.rs) -/

/-- Embedding of last_usable_sector (src/system.rs lines 224-229).
Rust i64 division truncates toward zero, which is Int.tdiv; the final
cast of the i64 result with as u64 reinterprets it modulo 2 ^ 64. -/
def last_usable_sector (disk_sectors first_usable_sector align : Int) : Nat :=
  let gpt_len := first_usable_sector - 2
  (((disk_sectors - gpt_len - 1).tdiv align * align) % (2 ^ 64)).toNat

/-! ## Theorems for claims C3, C8, C6, C7 -/

theorem find_merge_eq (a b : NameValues) (k : String) :
    NameValues.find (NameValues.merge a b) k =
      match NameValues.find b k with
      | some v => some v
      | none => NameValues.find a k := by
  induction a with
  | nil =>
    cases h : NameValues.find b k <;>
      simp [NameValues.merge, NameValues.find, h]
  | cons nv rest ih =>
    by_cases hb : NameValues.find b nv.name = none
    · rw [show NameValues.merge (nv :: rest) b = nv :: NameValues.merge rest b from by
        simp [NameValues.merge, hb]]
      by_cases hk : nv.name = k
      · subst hk
        simp [NameValues.find, hb]
      · rw [show NameValues.find (nv :: NameValues.merge rest b) k
            = NameValues.find (NameValues.merge rest b) k from by
          simp [NameValues.find, hk]]
        rw [ih]
        cases h : NameValues.find b k <;> simp [NameValues.find, hk]
    · rw [show NameValues.merge (nv :: rest) b = NameValues.merge rest b from by
        simp [NameValues.merge, Option.isNone_iff_eq_none, hb]]
      rw [ih]
      by_cases hk : nv.name = k
      · subst hk
        cases h : NameValues.find b nv.name with
        | none => exact absurd h hb
        | some v => simp
      · cases h : NameValues.find b k <;> simp [NameValues.find, hk]

theorem merge_eq_filter_append (a b : NameValues) :
    NameValues.merge a b =
      a.filter (fun nv => (NameValues.find b nv.name).isNone) ++ b := by
  induction a with
  | nil => simp [NameValues.merge]
  | cons nv rest ih =>
    by_cases hb : NameValues.find b nv.name = none
    · simp [NameValues.merge, List.filter_cons, hb, ih]
    · simp [NameValues.merge, List.filter_cons, Option.isNone_iff_eq_none, hb, ih]

/-- C3: for every pair of environment lists a and b and every key k,
(a.merge(b)).find(k) equals b.find(k) when b contains k and a.find(k)
otherwise, and the merged list is exactly the entries of a whose names
do not occur in b, in order, followed by all entries of b in order. -/
theorem claim_c3_merge_composition (a b : NameValues) (k : String) :
    (NameValues.find (NameValues.merge a b) k =
      match NameValues.find b k with
      | some v => some v
      | none => NameValues.find a k)
    ∧ NameValues.merge a b =
        a.filter (fun nv => (NameValues.find b nv.name).isNone) ++ b :=
  ⟨find_merge_eq a b k, merge_eq_filter_append a b⟩

/-- Dropping characters while none of them is the separator stops on the
separator when the list contains one. -/
theorem dropWhile_ne_of_mem (c : Char) (cs : List Char) (h : c ∈ cs) :
    ∃ r, cs.dropWhile (fun x => x ≠ c) = c :: r := by
  induction cs with
  | nil => cases h
  | cons x rest ih =>
    by_cases hx : x = c
    · subst hx
      refine ⟨rest, ?_⟩
      simp [List.dropWhile_cons]
    · rcases List.mem_cons.mp h with h1 | h2
      · exact absurd h1.symm hx
      · rcases ih h2 with ⟨r, hr⟩
        refine ⟨r, ?_⟩
        rw [List.dropWhile_cons, if_pos (by simpa using hx)]
        exact hr

/-- Taking while none of the characters is the separator keeps the whole
list, and dropping leaves nothing, when the separator never occurs. -/
theorem takeWhile_dropWhile_not_mem (c : Char) (cs : List Char) (h : c ∉ cs) :
    cs.takeWhile (fun x => x ≠ c) = cs ∧ cs.dropWhile (fun x => x ≠ c) = [] := by
  induction cs with
  | nil => exact ⟨rfl, rfl⟩
  | cons x rest ih =>
    have hx : ¬ x = c := fun hh => h (by simp [hh])
    have hrest := ih (fun hh => h (List.mem_cons_of_mem _ hh))
    constructor
    · rw [List.takeWhile_cons, if_pos (by simpa using hx), hrest.1]
    · rw [List.dropWhile_cons, if_pos (by simpa using hx)]
      exact hrest.2

/-- C8: converting a string containing an equals sign to a name/value
pair and back to an environment string yields the string again, and a
bare NAME with no equals sign parses to the pair (NAME, empty). -/
theorem claim_c8_env_round_trip (s : String) :
    ('=' ∈ s.data →
      NameValues.to_env_strings (to_name_values [s]) = [s])
    ∧ ('=' ∉ s.data → to_name_value s = { name := s, value := "" }) := by
  constructor
  · intro hmem
    rcases dropWhile_ne_of_mem '=' s.data hmem with ⟨r, hr⟩
    have hsplit : s.data.takeWhile (fun x => x ≠ '=') ++ ('=' :: r) = s.data := by
      rw [← hr]
      exact List.takeWhile_append_dropWhile _ _
    have hstr : String.mk (s.data.takeWhile (fun x => x ≠ '=')) ++ "=" ++ String.mk r
        = s := by
      apply String.ext
      simp only [String.data_append]
      show s.data.takeWhile (fun x => x ≠ '=') ++ ['='] ++ r = s.data
      simpa using hsplit
    simp only [to_name_values, to_name_value, NameValues.to_env_strings,
      List.map_cons, List.map_nil, hr, List.tail_cons, hstr]
  · intro hmem
    have h2 := takeWhile_dropWhile_not_mem '=' s.data hmem
    simp only [to_name_value, h2.1, h2.2, List.tail_nil]

/-- Witness for claim C8 at the strings NAME=VALUE and NAME. -/
theorem claim_c8_env_round_trip_witness :
    NameValues.to_env_strings (to_name_values ["NAME=VALUE"]) = ["NAME=VALUE"]
    ∧ to_name_value "NAME" = { name := "NAME", value := "" } :=
  ⟨(claim_c8_env_round_trip "NAME=VALUE").1 (by decide),
   (claim_c8_env_round_trip "NAME").2 (by decide)⟩

/-- C6: for a backoff with cap C and base 100 ms, the ceiling on the
random sleep at attempt k is min(C, 100 * 2 ^ k) with the doubling
saturating instead of overflowing, the random sleep never exceeds the
ceiling, and each wait call bumps the attempt counter, saturating at
u32::MAX instead of wrapping. -/
theorem claim_c6_backoff (k cap r : Nat) :
    ({ attempt := k, base_ms := 100, cap_ms := cap : RetryBackoff }.maxWait
        = min cap (min (100 * 2 ^ k) u64Max))
    ∧ ({ attempt := k, base_ms := 100, cap_ms := cap : RetryBackoff }.waitMs r
        ≤ { attempt := k, base_ms := 100, cap_ms := cap : RetryBackoff }.maxWait)
    ∧ ({ attempt := k, base_ms := 100, cap_ms := cap : RetryBackoff }.step.attempt
        = min (k + 1) u32Max)
    ∧ (k < u32Max →
        { attempt := k, base_ms := 100, cap_ms := cap : RetryBackoff }.step.attempt = k + 1)
    ∧ ({ attempt := u32Max, base_ms := 100, cap_ms := cap : RetryBackoff }.step.attempt
        = u32Max) := by
  refine ⟨?_, ?_, rfl, ?_, ?_⟩
  · show min cap (saturatingMul64 100 (2 ^ min k 63)) = min cap (min (100 * 2 ^ k) u64Max)
    unfold saturatingMul64
    rcases le_or_lt k 63 with h | h
    · rw [min_eq_left h]
    · rw [min_eq_right (le_of_lt h)]
      have h2 : u64Max ≤ 100 * 2 ^ 63 := by norm_num [u64Max]
      have hk : (2 : Nat) ^ 63 ≤ 2 ^ k := Nat.pow_le_pow_right (by norm_num) (le_of_lt h)
      have h3 : u64Max ≤ 100 * 2 ^ k := by omega
      rw [min_eq_right h2, min_eq_right h3]
  · show RetryBackoff.waitMs _ r ≤ RetryBackoff.maxWait _
    unfold RetryBackoff.waitMs
    split
    · exact le_of_lt (Nat.mod_lt _ (by assumption))
    · exact Nat.zero_le _
  · intro hk
    show min (k + 1) u32Max = k + 1
    unfold u32Max at hk ⊢
    omega
  · show min (u32Max + 1) u32Max = u32Max
    omega

/-- Witness for claim C6 at attempt 70, cap 5000 ms, random draw 12345:
the shift clamp saturates and the ceiling collapses to the cap. -/
theorem claim_c6_backoff_witness :
    ({ attempt := 70, base_ms := 100, cap_ms := 5000 : RetryBackoff }.maxWait
      = min 5000 (min (100 * 2 ^ 70) u64Max))
    ∧ ({ attempt := 70, base_ms := 100, cap_ms := 5000 : RetryBackoff }.step.attempt
      = 70 + 1) :=
  ⟨(claim_c6_backoff 70 5000 12345).1,
   (claim_c6_backoff 70 5000 12345).2.2.2.1 (by norm_num [u32Max])⟩

/-- C7: the last usable sector equals the claimed integer-division
formula whenever the alignment is positive and the disk is large
enough for the result to be representable, and at disk_sectors
2097152, first_usable 34, align 2048 it equals 2095104. -/
theorem claim_c7_last_usable_sector (d f a : Int)
    (ha : 0 < a) (hf : 2 ≤ f) (hfd : f ≤ d) (hd : d < 2 ^ 63) :
    ((last_usable_sector d f a : Int) = (d - (f - 2) - 1).tdiv a * a)
    ∧ last_usable_sector 2097152 34 2048 = 2095104 := by
  constructor
  · have hx0 : (0 : Int) ≤ d - (f - 2) - 1 := by omega
    have hdivnn : 0 ≤ (d - (f - 2) - 1).tdiv a :=
      Int.tdiv_nonneg hx0 (le_of_lt ha)
    have hv0 : 0 ≤ (d - (f - 2) - 1).tdiv a * a :=
      mul_nonneg hdivnn (le_of_lt ha)
    have htd : (d - (f - 2) - 1).tdiv a = (d - (f - 2) - 1) / a :=
      Int.tdiv_eq_ediv hx0 (le_of_lt ha)
    have hle : (d - (f - 2) - 1) / a * a ≤ d - (f - 2) - 1 :=
      Int.ediv_mul_le _ (ne_of_gt ha)
    have hlt : (d - (f - 2) - 1).tdiv a * a < 2 ^ 64 := by
      rw [htd]
      have h63 : (2 : Int) ^ 63 = 9223372036854775808 := by norm_num
      have h64 : (2 : Int) ^ 64 = 18446744073709551616 := by norm_num
      rw [h64]
      rw [h63] at hd
      omega
    have hemod : ((d - (f - 2) - 1).tdiv a * a) % (2 ^ 64)
        = (d - (f - 2) - 1).tdiv a * a :=
      Int.emod_eq_of_lt hv0 hlt
    show (Int.toNat (((d - (f - 2) - 1).tdiv a * a) % (2 ^ 64)) : Int) = _
    rw [hemod, Int.toNat_of_nonneg hv0]
  · decide

/-- Witness for claim C7 at the test vector from the specification. -/
theorem claim_c7_last_usable_sector_witness :
    (last_usable_sector 2097152 34 2048 : Int)
      = ((2097152 : Int) - (34 - 2) - 1).tdiv 2048 * 2048 :=
  (claim_c7_last_usable_sector 2097152 34 2048 (by norm_num) (by norm_num)
    (by norm_num) (by norm_num)).1

/-! ## Recursive mkdir prefix enumeration (src/fs.rs) -/

/-- Prepending a character to the first part of a split result. -/
def consHead (c : Char) : List (List Char) → List (List Char)
  | [] => [[c]]
  | p :: ps => (c :: p) :: ps

/-- Splitting a character list at every occurrence of a separator, as
Rust str::split does: the result always has at least one part, and
empty parts are kept. -/
def splitSep (sep : Char) : List Char → List (List Char)
  | [] => [[]]
  | c :: rest =>
    if c = sep then
      [] :: splitSep sep rest
    else
      consHead c (splitSep sep rest)

theorem splitSep_cons (sep c : Char) (rest : List Char) :
    splitSep sep (c :: rest)
      = if c = sep then [] :: splitSep sep rest
        else consHead c (splitSep sep rest) := rfl

/-- Joining parts with a separator, as Rust slice join does. -/
def joinSep (sep : Char) : List (List Char) → List Char
  | [] => []
  | [p] => p
  | p :: q :: ps => p ++ sep :: joinSep sep (q :: ps)

/-- Core of descending_dirs (src/fs.rs lines 82-88) before the
emptiness filter: dirs = path.split on the slash; for i in 1..=len,
join the first i parts with a slash. -/
def prefixJoins (cs : List Char) : List (List Char) :=
  let dirs := splitSep '/' cs
  (List.range dirs.length).map (fun i => joinSep '/' (dirs.take (i + 1)))

/-- Embedding of descending_dirs (src/fs.rs lines 82-88): the prefix
joins with empty strings filtered out. -/
def descending_dirs (path : String) : List String :=
  ((prefixJoins path.data).map String.mk).filter (fun s => !s.isEmpty)

/-- Specification-side description of C9: the prefixes of the path cut
at each slash separator or at the end of the path, with the empty
prefix removed, in order of increasing length. -/
def cutTakes (cs : List Char) : List (List Char) :=
  (List.range (cs.length + 1)).filterMap (fun n =>
    if n = cs.length ∨ cs[n]? = some '/' then some (cs.take n) else none)

/-- Specification-side description of C9 on strings. -/
def cutPrefixes (p : String) : List String :=
  ((cutTakes p.data).map String.mk).filter (fun s => !s.isEmpty)

theorem splitSep_no_sep (sep : Char) (cs : List Char)
    (h : ∀ x ∈ cs, x ≠ sep) : splitSep sep cs = [cs] := by
  induction cs with
  | nil => rfl
  | cons c rest ih =>
    have hc : ¬ c = sep := h c (List.mem_cons_self c rest)
    have hrest := ih (fun x hx => h x (List.mem_cons_of_mem _ hx))
    rw [splitSep_cons, if_neg hc, hrest]
    rfl

theorem splitSep_append_sep (sep : Char) (pre rest : List Char)
    (h : ∀ x ∈ pre, x ≠ sep) :
    splitSep sep (pre ++ sep :: rest) = pre :: splitSep sep rest := by
  induction pre with
  | nil => simp [splitSep]
  | cons c pre ih =>
    have hc : ¬ c = sep := h c (List.mem_cons_self c pre)
    have hpre := ih (fun x hx => h x (List.mem_cons_of_mem _ hx))
    rw [List.cons_append, splitSep_cons, if_neg hc, hpre]
    rfl

theorem joinSep_cons_of_ne_nil (sep : Char) (p : List Char)
    (l : List (List Char)) (h : l ≠ []) :
    joinSep sep (p :: l) = p ++ sep :: joinSep sep l := by
  cases l with
  | nil => exact absurd rfl h
  | cons q ps => rfl

theorem prefixJoins_no_sep (cs : List Char) (h : ∀ x ∈ cs, x ≠ '/') :
    prefixJoins cs = [cs] := by
  simp [prefixJoins, splitSep_no_sep '/' cs h, List.range_succ, joinSep]

theorem prefixJoins_append_sep (pre rest : List Char)
    (h : ∀ x ∈ pre, x ≠ '/') :
    prefixJoins (pre ++ '/' :: rest)
      = pre :: (prefixJoins rest).map (fun t => pre ++ '/' :: t) := by
  simp only [prefixJoins, splitSep_append_sep '/' pre rest h, List.length_cons]
  rw [List.range_succ_eq_map]
  simp only [List.map_cons, List.take_succ_cons, List.map_map]
  congr 1
  apply List.map_congr_left
  intro m hm
  have hm2 : m < (splitSep '/' rest).length := List.mem_range.mp hm
  have hne : (splitSep '/' rest).take (m + 1) ≠ [] := by
    cases hcase : splitSep '/' rest with
    | nil =>
      rw [hcase] at hm2
      exact absurd hm2 (Nat.not_lt_zero m)
    | cons a l => simp [List.take_succ_cons]
  show joinSep '/' (pre :: (splitSep '/' rest).take (m + 1)) = _
  rw [joinSep_cons_of_ne_nil '/' pre _ hne]
  rfl

theorem cutTakes_nil : cutTakes [] = [[]] := by decide

theorem cutTakes_no_sep (cs : List Char) (h : ∀ x ∈ cs, x ≠ '/') :
    cutTakes cs = [cs] := by
  unfold cutTakes
  rw [List.range_succ, List.filterMap_append]
  have h1 : (List.range cs.length).filterMap (fun n =>
      if n = cs.length ∨ cs[n]? = some '/' then some (cs.take n) else none) = [] := by
    rw [List.filterMap_eq_nil_iff]
    intro n hn
    have hlt : n < cs.length := List.mem_range.mp hn
    rw [if_neg]
    push_neg
    refine ⟨Nat.ne_of_lt hlt, ?_⟩
    intro hsl
    have hmem : '/' ∈ cs := by
      have := List.getElem?_eq_getElem hlt
      rw [this] at hsl
      have heq : cs[n] = '/' := by injection hsl
      exact heq ▸ List.getElem_mem hlt
    exact h '/' hmem rfl
  rw [h1]
  simp [List.take_length]

theorem cutTakes_append_sep (pre rest : List Char)
    (h : ∀ x ∈ pre, x ≠ '/') :
    cutTakes (pre ++ '/' :: rest)
      = pre :: (cutTakes rest).map (fun t => pre ++ '/' :: t) := by
  have hcs : pre ++ '/' :: rest = (pre ++ ['/']) ++ rest := by simp
  have hlen : (pre ++ '/' :: rest).length = (pre.length + 1) + rest.length := by
    simp
    omega
  unfold cutTakes
  rw [hlen,
    show (pre.length + 1) + rest.length + 1
      = (pre.length + 1) + (rest.length + 1) from by omega]
  rw [List.range_add, List.filterMap_append, List.filterMap_map]
  have hfirst : (List.range (pre.length + 1)).filterMap (fun n =>
      if n = pre.length + 1 + rest.length ∨ (pre ++ '/' :: rest)[n]? = some '/'
      then some ((pre ++ '/' :: rest).take n) else none) = [pre] := by
    rw [List.range_succ, List.filterMap_append]
    have hz : (List.range pre.length).filterMap (fun n =>
        if n = pre.length + 1 + rest.length ∨ (pre ++ '/' :: rest)[n]? = some '/'
        then some ((pre ++ '/' :: rest).take n) else none) = [] := by
      rw [List.filterMap_eq_nil_iff]
      intro n hn
      have hlt : n < pre.length := List.mem_range.mp hn
      rw [if_neg]
      push_neg
      constructor
      · omega
      · rw [List.getElem?_append_left (by omega)]
        intro hsl
        have hmem : '/' ∈ pre := by
          have := List.getElem?_eq_getElem hlt
          rw [this] at hsl
          have heq : pre[n] = '/' := by injection hsl
          exact heq ▸ List.getElem_mem hlt
        exact h '/' hmem rfl
    rw [hz]
    have hcut : (pre ++ '/' :: rest)[pre.length]? = some '/' := by
      rw [List.getElem?_append_right (le_refl _)]
      simp
    simp only [List.filterMap_cons, List.filterMap_nil, hcut, or_true, if_pos,
      List.nil_append]
    rw [List.take_left]
  rw [hfirst]
  have hsecond : ∀ m, ((fun n =>
      if n = pre.length + 1 + rest.length ∨ (pre ++ '/' :: rest)[n]? = some '/'
      then some ((pre ++ '/' :: rest).take n) else none)
        ∘ (fun x => pre.length + 1 + x)) m
      = Option.map (fun t => pre ++ '/' :: t)
          (if m = rest.length ∨ rest[m]? = some '/'
            then some (rest.take m) else none) := by
    intro m
    have hget : (pre ++ '/' :: rest)[pre.length + 1 + m]? = rest[m]? := by
      rw [hcs, List.getElem?_append_right
        (by simp only [List.length_append, List.length_cons, List.length_nil]; omega)]
      congr 1
      simp only [List.length_append, List.length_cons, List.length_nil]
      omega
    have hiff : (pre.length + 1 + m = pre.length + 1 + rest.length
        ∨ (pre ++ '/' :: rest)[pre.length + 1 + m]? = some '/')
        ↔ (m = rest.length ∨ rest[m]? = some '/') := by
      rw [hget]
      constructor
      · rintro (h1 | h2)
        · exact Or.inl (by omega)
        · exact Or.inr h2
      · rintro (h1 | h2)
        · exact Or.inl (by omega)
        · exact Or.inr h2
    have htake : (pre ++ '/' :: rest).take (pre.length + 1 + m)
        = pre ++ '/' :: rest.take m := by
      rw [hcs, show pre.length + 1 + m = (pre ++ ['/']).length + m from by simp,
        List.take_append]
      simp
    show (if pre.length + 1 + m = pre.length + 1 + rest.length
        ∨ (pre ++ '/' :: rest)[pre.length + 1 + m]? = some '/'
      then some ((pre ++ '/' :: rest).take (pre.length + 1 + m)) else none) = _
    by_cases hcond : m = rest.length ∨ rest[m]? = some '/'
    · rw [if_pos (hiff.mpr hcond), if_pos hcond, htake]
      rfl
    · rw [if_neg (fun hc => hcond (hiff.mp hc)), if_neg hcond]
      rfl
  rw [show ((fun n =>
      if n = pre.length + 1 + rest.length ∨ (pre ++ '/' :: rest)[n]? = some '/'
      then some ((pre ++ '/' :: rest).take n) else none)
        ∘ (fun x => pre.length + 1 + x))
      = (fun m => Option.map (fun t => pre ++ '/' :: t)
          (if m = rest.length ∨ rest[m]? = some '/'
            then some (rest.take m) else none)) from funext hsecond]
  rw [← List.map_filterMap]
  rfl

theorem prefixJoins_eq_cutTakes_aux :
    ∀ (n : Nat) (cs : List Char), cs.length ≤ n → prefixJoins cs = cutTakes cs := by
  intro n
  induction n with
  | zero =>
    intro cs hlen
    have : cs = [] := List.length_eq_zero.mp (Nat.le_zero.mp hlen)
    subst this
    rw [cutTakes_nil]
    rfl
  | succ n ih =>
    intro cs hlen
    by_cases hmem : '/' ∈ cs
    · rcases dropWhile_ne_of_mem '/' cs hmem with ⟨r, hr⟩
      have hcs : cs.takeWhile (fun x => x ≠ '/') ++ '/' :: r = cs := by
        rw [← hr]
        exact List.takeWhile_append_dropWhile _ _
      have hpre : ∀ x ∈ cs.takeWhile (fun x => x ≠ '/'), x ≠ '/' := by
        intro x hx
        have := List.mem_takeWhile_imp hx
        simpa using this
      have hrlen : r.length ≤ n := by
        have hlc := congrArg List.length hcs
        simp only [List.length_append, List.length_cons] at hlc
        omega
      rw [← hcs, prefixJoins_append_sep _ _ hpre, cutTakes_append_sep _ _ hpre,
        ih r hrlen]
    · have hpre : ∀ x ∈ cs, x ≠ '/' := fun x hx hc => hmem (hc ▸ hx)
      rw [prefixJoins_no_sep cs hpre, cutTakes_no_sep cs hpre]

theorem prefixJoins_eq_cutTakes (cs : List Char) : prefixJoins cs = cutTakes cs :=
  prefixJoins_eq_cutTakes_aux cs.length cs le_rfl

/-- C9: the directory prefixes visited by recursive mkdir are exactly
the nonempty prefixes of the path cut at slash separators, in order of
increasing length, and the six fixture paths produce the expected
sequences. -/
theorem claim_c9_descending_dirs (p : String) :
    descending_dirs p = cutPrefixes p
    ∧ descending_dirs "" = []
    ∧ descending_dirs "a" = ["a"]
    ∧ descending_dirs "/a" = ["/a"]
    ∧ descending_dirs "/a/b" = ["/a", "/a/b"]
    ∧ descending_dirs "/a/b/" = ["/a", "/a/b", "/a/b/"]
    ∧ descending_dirs "/a/b/c/d" = ["/a", "/a/b", "/a/b/c", "/a/b/c/d"] := by
  refine ⟨?_, by decide, by decide, by decide, by decide, by decide, by decide⟩
  unfold descending_dirs cutPrefixes
  rw [prefixJoins_eq_cutTakes]

/-! ## Interface name classification (src/network.rs) -/

/-- Rust char::is_ascii_digit: code point between 0 and 9 inclusive. -/
def isAsciiDigit (c : Char) : Bool := decide (48 ≤ c.toNat ∧ c.toNat ≤ 57)

/-- Rust char::is_ascii_alphabetic: an upper or lower case ASCII letter. -/
def isAsciiAlpha (c : Char) : Bool :=
  decide ((65 ≤ c.toNat ∧ c.toNat ≤ 90) ∨ (97 ≤ c.toNat ∧ c.toNat ≤ 122))

/-- Decimal value of a digit string. -/
def digitsToNat (cs : List Char) : Nat :=
  cs.foldl (fun a c => a * 10 + (c.toNat - 48)) 0

/-- Embedding of Rust str::parse for u32: an optional single leading
plus sign, then one or more ASCII digits whose value fits in a u32. -/
def parseU32 (cs : List Char) : Option Nat :=
  let digits := if cs.head? = some '+' then cs.tail else cs
  if digits = [] then none
  else if digits.all isAsciiDigit then
    if digitsToNat digits ≤ u32Max then some (digitsToNat digits) else none
  else none

/-- Embedding of enum IfFamily (src/network.rs lines 530-534). -/
inductive IfFamily where
  | simple (pre : String) (index : Nat)
  | protectedFam
deriving DecidableEq, Repr

/-- Rust str::split_at on the underlying UTF-8 bytes: walk the
characters consuming their UTF-8 byte widths until exactly n bytes are
covered. The result is none — a panic in Rust — when the byte offset n
falls past the end of the string or inside a multi-byte character,
that is, when n is not a character boundary. -/
def byteSplitAt : Nat → List Char → Option (List Char × List Char)
  | 0, cs => some ([], cs)
  | _ + 1, [] => none
  | n + 1, c :: rest =>
    if c.utf8Size ≤ n + 1 then
      (byteSplitAt (n + 1 - c.utf8Size) rest).map (fun pr => (c :: pr.1, pr.2))
    else none

/-- Embedding of parse_family (src/network.rs lines 536-557). The Rust
loop scans a Vec of chars from the right, so i lands at the start of
the maximal trailing digit run, counted in characters; but
name.split_at(i) then interprets i as a byte index into the str and
panics when that byte offset is not a UTF-8 character boundary — none
models that panic. A name with no trailing digits returns Protected
before the split; after a successful split, a head that is not all
ASCII alphabetic, or a digit suffix that fails the u32 parse, is
Protected. -/
def parse_family (name : String) : Option IfFamily :=
  if (name.data.reverse.takeWhile isAsciiDigit) = [] then
    some IfFamily.protectedFam
  else
    match byteSplitAt (name.data.reverse.dropWhile isAsciiDigit).length name.data with
    | none => none
    | some (preB, sufB) =>
      if preB.all isAsciiAlpha then
        match parseU32 sufB with
        | some idx => some (IfFamily.simple (String.mk preB) idx)
        | none => some IfFamily.protectedFam
      else some IfFamily.protectedFam

/-- Embedding of desired_name_for_primary (src/network.rs lines
559-564): a Simple name is renamed to its family head followed by 0; a
Protected name yields no desired name; a panic in parse_family
propagates and is modelled by the outer none. -/
def desired_name_for_primary (current : String) : Option (Option String) :=
  match parse_family current with
  | none => none
  | some (IfFamily.simple pre _) => some (some (pre ++ "0"))
  | some IfFamily.protectedFam => some none

/-- Primary-name policy as applied by the renaming step: rename to the
desired name when there is one, otherwise leave the name alone; none
models the propagated panic. -/
def applyPrimaryNamePolicy (name : String) : Option String :=
  match desired_name_for_primary name with
  | none => none
  | some (some n) => some n
  | some none => some name

/-- Classification claimed by the specification: a nonempty ASCII
alphabetic head followed by one or more ASCII digits. -/
def ClaimSimpleSpec (name : String) : Prop :=
  ∃ preL digits, name.data = preL ++ digits
    ∧ preL ≠ []
    ∧ (∀ c ∈ preL, isAsciiAlpha c = true)
    ∧ digits ≠ []
    ∧ (∀ c ∈ digits, isAsciiDigit c = true)

/-- Amended classification: the alphabetic head may be empty, and the
digit suffix must parse as a u32 without overflow. -/
def SimpleSpec (name : String) : Prop :=
  ∃ preL digits, name.data = preL ++ digits
    ∧ (∀ c ∈ preL, isAsciiAlpha c = true)
    ∧ digits ≠ []
    ∧ (∀ c ∈ digits, isAsciiDigit c = true)
    ∧ digitsToNat digits ≤ u32Max

theorem alpha_not_digit (c : Char) (h : isAsciiAlpha c = true) :
    isAsciiDigit c = false := by
  unfold isAsciiAlpha at h
  unfold isAsciiDigit
  rw [decide_eq_true_eq] at h
  rw [decide_eq_false_iff_not]
  omega

theorem takeWhile_append_of_all (P : Char → Bool) (l₁ l₂ : List Char)
    (h : ∀ c ∈ l₁, P c = true) :
    (l₁ ++ l₂).takeWhile P = l₁ ++ l₂.takeWhile P := by
  induction l₁ with
  | nil => simp
  | cons c cs ih =>
    rw [List.cons_append, List.takeWhile_cons,
      if_pos (h c (List.mem_cons_self c cs)),
      ih (fun x hx => h x (List.mem_cons_of_mem _ hx)), List.cons_append]

theorem dropWhile_append_of_all (P : Char → Bool) (l₁ l₂ : List Char)
    (h : ∀ c ∈ l₁, P c = true) :
    (l₁ ++ l₂).dropWhile P = l₂.dropWhile P := by
  induction l₁ with
  | nil => simp
  | cons c cs ih =>
    rw [List.cons_append, List.dropWhile_cons,
      if_pos (h c (List.mem_cons_self c cs)),
      ih (fun x hx => h x (List.mem_cons_of_mem _ hx))]

theorem takeWhile_eq_nil_of_all_not (P : Char → Bool) (l : List Char)
    (h : ∀ c ∈ l, P c = false) : l.takeWhile P = [] := by
  cases l with
  | nil => rfl
  | cons c cs =>
    rw [List.takeWhile_cons, if_neg]
    rw [h c (List.mem_cons_self c cs)]
    exact Bool.false_ne_true

theorem dropWhile_eq_self_of_all_not (P : Char → Bool) (l : List Char)
    (h : ∀ c ∈ l, P c = false) : l.dropWhile P = l := by
  cases l with
  | nil => rfl
  | cons c cs =>
    rw [List.dropWhile_cons, if_neg]
    rw [h c (List.mem_cons_self c cs)]
    exact Bool.false_ne_true

theorem parseU32_of_digits (ds : List Char) (hne : ds ≠ [])
    (hall : ∀ c ∈ ds, isAsciiDigit c = true) :
    parseU32 ds = if digitsToNat ds ≤ u32Max then some (digitsToNat ds) else none := by
  unfold parseU32
  cases ds with
  | nil => exact absurd rfl hne
  | cons c rest =>
    have hcd : isAsciiDigit c = true := hall c (List.mem_cons_self c rest)
    have hplus : ¬ (c :: rest).head? = some '+' := by
      intro hh
      have : c = '+' := by injection (List.head?_cons ▸ hh)
      rw [this] at hcd
      exact absurd hcd (by decide)
    rw [if_neg hplus, if_neg hne, if_pos (List.all_eq_true.mpr hall)]

theorem utf8Size_one_of_alpha (c : Char) (h : isAsciiAlpha c = true) :
    c.utf8Size = 1 := by
  unfold isAsciiAlpha at h
  rw [decide_eq_true_eq] at h
  have hv : c.val ≤ UInt32.ofNatCore 0x7F (by decide) := by
    rw [UInt32.le_def, BitVec.le_def]
    show c.toNat ≤ 127
    omega
  simp only [Char.utf8Size]
  rw [if_pos hv]

theorem byteSplitAt_some :
    ∀ (n : Nat) (cs p s : List Char), byteSplitAt n cs = some (p, s) →
      cs = p ++ s ∧ (p.map Char.utf8Size).sum = n := by
  intro n cs
  induction cs generalizing n with
  | nil =>
    intro p s h
    cases n with
    | zero =>
      simp only [byteSplitAt, Option.some.injEq, Prod.mk.injEq] at h
      obtain ⟨hp, hs⟩ := h
      subst hp
      subst hs
      exact ⟨rfl, rfl⟩
    | succ m => simp [byteSplitAt] at h
  | cons c rest ih =>
    intro p s h
    cases n with
    | zero =>
      simp only [byteSplitAt, Option.some.injEq, Prod.mk.injEq] at h
      obtain ⟨hp, hs⟩ := h
      subst hp
      subst hs
      exact ⟨rfl, rfl⟩
    | succ m =>
      simp only [byteSplitAt] at h
      by_cases hsz : c.utf8Size ≤ m + 1
      · rw [if_pos hsz] at h
        cases hrec : byteSplitAt (m + 1 - c.utf8Size) rest with
        | none =>
          rw [hrec] at h
          exact absurd h (by simp)
        | some pr =>
          obtain ⟨p1, s1⟩ := pr
          rw [hrec] at h
          simp only [Option.map_some', Option.some.injEq, Prod.mk.injEq] at h
          obtain ⟨hp, hs⟩ := h
          obtain ⟨hcs, hsum⟩ := ih (m + 1 - c.utf8Size) p1 s1 hrec
          subst hp
          subst hs
          constructor
          · rw [hcs, List.cons_append]
          · simp only [List.map_cons, List.sum_cons]
            omega
      · rw [if_neg hsz] at h
        exact absurd h (by simp)

theorem length_le_utf8_sum (p : List Char) :
    p.length ≤ (p.map Char.utf8Size).sum := by
  induction p with
  | nil => simp
  | cons c rest ih =>
    have := Char.utf8Size_pos c
    simp only [List.length_cons, List.map_cons, List.sum_cons]
    omega

theorem sum_eq_length_of_all_one (p : List Char)
    (h : ∀ c ∈ p, c.utf8Size = 1) :
    (p.map Char.utf8Size).sum = p.length := by
  induction p with
  | nil => rfl
  | cons c rest ih =>
    simp only [List.map_cons, List.sum_cons, List.length_cons,
      h c (List.mem_cons_self c rest),
      ih (fun x hx => h x (List.mem_cons_of_mem _ hx))]
    omega

theorem byteSplitAt_all_one (p s : List Char)
    (h : ∀ c ∈ p, c.utf8Size = 1) :
    byteSplitAt p.length (p ++ s) = some (p, s) := by
  induction p with
  | nil => simp [byteSplitAt]
  | cons c rest ih =>
    have hc : c.utf8Size = 1 := h c (List.mem_cons_self c rest)
    show byteSplitAt (rest.length + 1) (c :: (rest ++ s)) = some (c :: rest, s)
    simp only [byteSplitAt, hc]
    rw [if_pos (by omega), Nat.add_sub_cancel,
      ih (fun x hx => h x (List.mem_cons_of_mem _ hx))]
    rfl

theorem parse_family_decomp (preL digits : List Char)
    (hpre : ∀ c ∈ preL, isAsciiAlpha c = true)
    (hdig : ∀ c ∈ digits, isAsciiDigit c = true)
    (hne : digits ≠ []) :
    parse_family (String.mk (preL ++ digits))
      = some (if digitsToNat digits ≤ u32Max
        then IfFamily.simple (String.mk preL) (digitsToNat digits)
        else IfFamily.protectedFam) := by
  have hdata : (String.mk (preL ++ digits)).data = preL ++ digits := rfl
  have htw : (preL ++ digits).reverse.takeWhile isAsciiDigit = digits.reverse := by
    rw [List.reverse_append,
      takeWhile_append_of_all _ _ _ (fun c hc => hdig c (List.mem_reverse.mp hc)),
      takeWhile_eq_nil_of_all_not _ _
        (fun c hc => alpha_not_digit c (hpre c (List.mem_reverse.mp hc))),
      List.append_nil]
  have hdw : (preL ++ digits).reverse.dropWhile isAsciiDigit = preL.reverse := by
    rw [List.reverse_append,
      dropWhile_append_of_all _ _ _ (fun c hc => hdig c (List.mem_reverse.mp hc)),
      dropWhile_eq_self_of_all_not _ _
        (fun c hc => alpha_not_digit c (hpre c (List.mem_reverse.mp hc)))]
  have hrne : digits.reverse ≠ [] := by
    intro hh
    exact hne (by simpa using congrArg List.reverse hh)
  have hsz : ∀ c ∈ preL, c.utf8Size = 1 :=
    fun c hc => utf8Size_one_of_alpha c (hpre c hc)
  unfold parse_family
  rw [hdata, htw, hdw, if_neg hrne, List.length_reverse,
    byteSplitAt_all_one preL digits hsz]
  show (if preL.all isAsciiAlpha = true then
      match parseU32 digits with
      | some idx => some (IfFamily.simple (String.mk preL) idx)
      | none => some IfFamily.protectedFam
    else some IfFamily.protectedFam) = _
  rw [if_pos (List.all_eq_true.mpr hpre), parseU32_of_digits digits hne hdig]
  by_cases hbound : digitsToNat digits ≤ u32Max
  · rw [if_pos hbound, if_pos hbound]
  · rw [if_neg hbound, if_neg hbound]

theorem parse_family_simple_inv (name p : String) (i : Nat)
    (hp : parse_family name = some (IfFamily.simple p i)) :
    ∃ digits, name.data = p.data ++ digits
      ∧ (∀ c ∈ p.data, isAsciiAlpha c = true)
      ∧ digits ≠ []
      ∧ (∀ c ∈ digits, isAsciiDigit c = true)
      ∧ digitsToNat digits = i ∧ digitsToNat digits ≤ u32Max := by
  unfold parse_family at hp
  by_cases h1 : (name.data.reverse.takeWhile isAsciiDigit) = []
  · rw [if_pos h1] at hp
    exact absurd hp (by simp)
  rw [if_neg h1] at hp
  split at hp
  · exact absurd hp (by simp)
  · next preB sufB heq =>
    by_cases h2 : preB.all isAsciiAlpha = true
    · rw [if_pos h2] at hp
      cases hparse : parseU32 sufB with
      | none =>
        rw [hparse] at hp
        exact absurd hp (by simp)
      | some v =>
        rw [hparse] at hp
        simp only [Option.some.injEq, IfFamily.simple.injEq] at hp
        obtain ⟨hpeq, hveq⟩ := hp
        obtain ⟨hsplit, hsum⟩ := byteSplitAt_some _ _ _ _ heq
        have hall1 : ∀ c ∈ preB, c.utf8Size = 1 :=
          fun c hc => utf8Size_one_of_alpha c (List.all_eq_true.mp h2 c hc)
        have hlen : preB.length = (name.data.reverse.dropWhile isAsciiDigit).length := by
          rw [← hsum, sum_eq_length_of_all_one preB hall1]
        have hhd : name.data = (name.data.reverse.dropWhile isAsciiDigit).reverse
            ++ (name.data.reverse.takeWhile isAsciiDigit).reverse := by
          rw [← List.reverse_append, List.takeWhile_append_dropWhile,
            List.reverse_reverse]
        have heq2 : preB ++ sufB
            = (name.data.reverse.dropWhile isAsciiDigit).reverse
              ++ (name.data.reverse.takeWhile isAsciiDigit).reverse :=
          hsplit.symm.trans hhd
        obtain ⟨hpre2, hsuf2⟩ := List.append_inj heq2
          (by rw [hlen, List.length_reverse])
        refine ⟨sufB, ?_, ?_, ?_, ?_, ?_, ?_⟩
        · rw [← hpeq]
          exact hsplit
        · rw [← hpeq]
          intro c hc
          exact List.all_eq_true.mp h2 c hc
        · intro hh
          rw [hh] at hsuf2
          exact h1 (by simpa using congrArg List.reverse hsuf2.symm)
        · intro c hc
          rw [hsuf2] at hc
          exact List.mem_takeWhile_imp (List.mem_reverse.mp hc)
        · have hallsuf : ∀ c ∈ sufB, isAsciiDigit c = true := by
            intro c hc
            rw [hsuf2] at hc
            exact List.mem_takeWhile_imp (List.mem_reverse.mp hc)
          have hnesuf : sufB ≠ [] := by
            intro hh
            rw [hh] at hsuf2
            exact h1 (by simpa using congrArg List.reverse hsuf2.symm)
          rw [parseU32_of_digits sufB hnesuf hallsuf] at hparse
          by_cases hbound : digitsToNat sufB ≤ u32Max
          · rw [if_pos hbound] at hparse
            have hv2 : digitsToNat sufB = v := by injection hparse
            rw [hv2]
            exact hveq
          · rw [if_neg hbound] at hparse
            exact absurd hparse (by simp)
        · have hallsuf : ∀ c ∈ sufB, isAsciiDigit c = true := by
            intro c hc
            rw [hsuf2] at hc
            exact List.mem_takeWhile_imp (List.mem_reverse.mp hc)
          have hnesuf : sufB ≠ [] := by
            intro hh
            rw [hh] at hsuf2
            exact h1 (by simpa using congrArg List.reverse hsuf2.symm)
          rw [parseU32_of_digits sufB hnesuf hallsuf] at hparse
          by_cases hbound : digitsToNat sufB ≤ u32Max
          · exact hbound
          · rw [if_neg hbound] at hparse
            exact absurd hparse (by simp)
    · rw [if_neg h2] at hp
      exact absurd hp (by simp)

theorem apply_policy_of_panic (name : String)
    (hp : parse_family name = none) :
    applyPrimaryNamePolicy name = none := by
  unfold applyPrimaryNamePolicy desired_name_for_primary
  rw [hp]

theorem apply_policy_of_prot (name : String)
    (hp : parse_family name = some IfFamily.protectedFam) :
    applyPrimaryNamePolicy name = some name := by
  unfold applyPrimaryNamePolicy desired_name_for_primary
  rw [hp]

theorem apply_policy_of_simple (name p : String) (i : Nat)
    (hp : parse_family name = some (IfFamily.simple p i)) :
    applyPrimaryNamePolicy name = some (p ++ "0") := by
  unfold applyPrimaryNamePolicy desired_name_for_primary
  rw [hp]

theorem parse_family_append_zero (p : String)
    (halpha : ∀ c ∈ p.data, isAsciiAlpha c = true) :
    parse_family (p ++ "0") = some (IfFamily.simple p 0) := by
  have h1 : p ++ "0" = String.mk (p.data ++ ['0']) := by
    apply String.ext
    rw [String.data_append]
  rw [h1, parse_family_decomp p.data ['0'] halpha (by decide) (by decide),
    if_pos (by decide)]
  rfl

/-- Counterexample to C5 as stated: the all-digit name 123 has an empty
alphabetic head, so the claimed classification calls it Protected, yet
parse_family classifies it Simple with an empty family head; dually,
eth4294967296 matches the claimed shape but its digit suffix overflows
a u32, so parse_family classifies it Protected; and the name ñ12
matches neither outcome — the char-counted split index 1 is a byte
offset inside the two-byte ñ, so the program panics in str::split_at
instead of classifying the name at all. -/
theorem claim_c5_counterexample :
    (parse_family "123" = some (IfFamily.simple "" 123) ∧ ¬ ClaimSimpleSpec "123")
    ∧ (parse_family "eth4294967296" = some IfFamily.protectedFam
        ∧ ClaimSimpleSpec "eth4294967296")
    ∧ parse_family "ñ12" = none := by
  refine ⟨⟨by decide, ?_⟩, ⟨by decide, ?_⟩, by decide⟩
  · rintro ⟨preL, digits, hsplit, hprene, hprealpha, hdigne, hdigall⟩
    cases preL with
    | nil => exact hprene rfl
    | cons c cs =>
      rw [show ("123" : String).data = ['1', '2', '3'] from rfl,
        List.cons_append] at hsplit
      injection hsplit with h1 h2
      have halpha := hprealpha c (List.mem_cons_self c cs)
      rw [← h1] at halpha
      exact absurd halpha (by decide)
  · refine ⟨['e', 't', 'h'], ['4', '2', '9', '4', '9', '6', '7', '2', '9', '6'],
      by decide, by decide, by decide, by decide, by decide⟩

/-- C5 amended: on every name where parse_family completes without
panicking, the classification is Simple exactly when the name is a
possibly empty ASCII alphabetic head followed by one or more ASCII
digits whose decimal value fits in a u32, and Protected otherwise; the
Simple predicate itself guarantees completion, so that direction is
unconditional. The primary-name policy maps a Simple name to its head
followed by 0 and leaves Protected names unchanged, and whenever one
application completes, a second application completes with the same
result. -/
theorem claim_c5_name_policy (name : String) :
    (SimpleSpec name ↔ ∃ pre idx, parse_family name = some (IfFamily.simple pre idx))
    ∧ (∀ r, applyPrimaryNamePolicy name = some r →
        applyPrimaryNamePolicy r = some r)
    ∧ (parse_family name = some IfFamily.protectedFam →
        applyPrimaryNamePolicy name = some name)
    ∧ (∀ pre idx, parse_family name = some (IfFamily.simple pre idx) →
        applyPrimaryNamePolicy name = some (pre ++ "0")) := by
  refine ⟨⟨?_, ?_⟩, ?_, ?_, ?_⟩
  · rintro ⟨preL, digits, hsplit, hpre, hne, hdig, hbound⟩
    have hname : name = String.mk (preL ++ digits) := String.ext hsplit
    refine ⟨String.mk preL, digitsToNat digits, ?_⟩
    rw [hname, parse_family_decomp preL digits hpre hdig hne, if_pos hbound]
  · rintro ⟨pre, idx, hp⟩
    rcases parse_family_simple_inv name pre idx hp with
      ⟨digits, hsplit, halpha, hne, hdig, hval, hbound⟩
    exact ⟨pre.data, digits, hsplit, halpha, hne, hdig, hbound⟩
  · intro r hr
    cases hpf : parse_family name with
    | none =>
      rw [apply_policy_of_panic name hpf] at hr
      exact absurd hr (by simp)
    | some fam =>
      cases fam with
      | protectedFam =>
        rw [apply_policy_of_prot name hpf] at hr
        injection hr with hr2
        subst hr2
        exact apply_policy_of_prot name hpf
      | simple p i =>
        rw [apply_policy_of_simple name p i hpf] at hr
        injection hr with hr2
        subst hr2
        rcases parse_family_simple_inv name p i hpf with
          ⟨digits, _, halpha, _, _, _, _⟩
        exact apply_policy_of_simple (p ++ "0") p 0 (parse_family_append_zero p halpha)
  · exact apply_policy_of_prot name
  · intro pre idx hp
    exact apply_policy_of_simple name pre idx hp

/-- Witness for the amended C5 at the name ens192: it is Simple, the
policy renames it to ens0, and a second application completes with the
same result. -/
theorem claim_c5_name_policy_witness :
    applyPrimaryNamePolicy "ens192" = some ("ens" ++ "0")
    ∧ applyPrimaryNamePolicy "ens0" = some "ens0" :=
  ⟨(claim_c5_name_policy "ens192").2.2.2 "ens" 192 (by decide),
   (claim_c5_name_policy "ens192").2.1 "ens0" (by decide)⟩

/-! ## Login database lookup (src/login.rs) -/

/-- Outcome of user_group_id (src/login.rs lines 146-177): success with
an id, a parse error on a bad id field, the not-found error, or a
panic from an out-of-bounds Vec index. -/
inductive LoginResult where
  | ok (id : Nat)
  | parseErr
  | notFound
  | panicked
deriving DecidableEq, Repr

/-- Embedding of the inner is_numeric of user_group_id: every character
is an ASCII digit (vacuously true for the empty string). -/
def isNumericName (s : String) : Bool := s.data.all isAsciiDigit

/-- First colon-separated field of a line. -/
def firstField (line : String) : List Char :=
  match splitSep ':' line.data with
  | f :: _ => f
  | [] => []

/-- Embedding of the line loop of user_group_id: split each line on
colons; on the first line whose field 0 equals the name, index field 2
and parse it as a u32 — indexing panics when the line has fewer than
three fields; when no line matches, the id is not found. -/
def lookupLoop (name : String) : List String → LoginResult
  | [] => LoginResult.notFound
  | line :: rest =>
    match splitSep ':' line.data with
    | [] => LoginResult.panicked
    | f0 :: fs =>
      if f0 = name.data then
        match fs with
        | _f1 :: f2 :: _ =>
          match parseU32 f2 with
          | some v => LoginResult.ok v
          | none => LoginResult.parseErr
        | _ => LoginResult.panicked
      else lookupLoop name rest

/-- Embedding of user_group_id (src/login.rs lines 146-177): a numeric
name is parsed directly as a u32; otherwise the login database lines
are scanned. -/
def user_group_id (lines : List String) (name : String) : LoginResult :=
  if isNumericName name then
    match parseU32 name.data with
    | some v => LoginResult.ok v
    | none => LoginResult.parseErr
  else lookupLoop name lines

theorem splitSep_ne_nil (sep : Char) (cs : List Char) : splitSep sep cs ≠ [] := by
  cases cs with
  | nil => simp [splitSep]
  | cons c rest =>
    rw [splitSep_cons]
    by_cases hc : c = sep
    · simp [hc]
    · rw [if_neg hc]
      cases splitSep sep rest <;> simp [consHead]

theorem lookupLoop_panics (name : String) :
    ∀ (pre : List String) (line : String) (post : List String),
      (∀ l ∈ pre, firstField l ≠ name.data) →
      firstField line = name.data →
      (splitSep ':' line.data).length < 3 →
      lookupLoop name (pre ++ line :: post) = LoginResult.panicked := by
  intro pre
  induction pre with
  | nil =>
    intro line post _ hmatch hlen
    rw [List.nil_append]
    unfold lookupLoop
    split
    · next heq => exact absurd heq (splitSep_ne_nil ':' line.data)
    · next f0 fs heq =>
      have hf0 : f0 = name.data := by
        rw [← hmatch]
        unfold firstField
        rw [heq]
      rw [if_pos hf0]
      rw [heq] at hlen
      cases fs with
      | nil => rfl
      | cons f1 fs2 =>
        cases fs2 with
        | nil => rfl
        | cons f2 fs3 =>
          simp only [List.length_cons] at hlen
          omega
  | cons l pre ih =>
    intro line post hpre hmatch hlen
    rw [List.cons_append]
    unfold lookupLoop
    split
    · next heq => exact absurd heq (splitSep_ne_nil ':' l.data)
    · next f0 fs heq =>
      have hf0 : f0 ≠ name.data := by
        have hl := hpre l (List.mem_cons_self l pre)
        unfold firstField at hl
        rw [heq] at hl
        exact hl
      rw [if_neg hf0]
      show lookupLoop name (pre ++ line :: post) = LoginResult.panicked
      exact ih line post (fun x hx => hpre x (List.mem_cons_of_mem _ hx)) hmatch hlen

theorem lookupLoop_parseErr (name : String) :
    ∀ lines, lookupLoop name lines = LoginResult.parseErr →
      ∃ line ∈ lines, firstField line = name.data
        ∧ 3 ≤ (splitSep ':' line.data).length := by
  intro lines
  induction lines with
  | nil =>
    intro h
    exact absurd h (by simp [lookupLoop])
  | cons line rest ih =>
    intro h
    unfold lookupLoop at h
    split at h
    · next heq => exact absurd heq (splitSep_ne_nil ':' line.data)
    · next f0 fs heq =>
      by_cases hf0 : f0 = name.data
      · rw [if_pos hf0] at h
        cases fs with
        | nil => simp at h
        | cons f1 fs2 =>
          cases fs2 with
          | nil => simp at h
          | cons f2 fs3 =>
            refine ⟨line, List.mem_cons_self line rest, ?_, ?_⟩
            · unfold firstField
              rw [heq, hf0]
            · rw [heq]
              simp only [List.length_cons]
              omega
      · rw [if_neg hf0] at h
        rcases ih h with ⟨l2, hmem, hff, hlen⟩
        exact ⟨l2, List.mem_cons_of_mem _ hmem, hff, hlen⟩

/-- C10: for a non-numeric name, when the first line whose field 0
equals the name has fewer than three colon-separated fields,
user_group_id panics via the out-of-bounds index on field 2 instead of
returning a parse error; the parse-error branch is only reached for a
matching line with at least three fields. -/
theorem claim_c10_login_lookup (lines : List String) (name : String)
    (hnum : isNumericName name = false) :
    (∀ pre line post, lines = pre ++ line :: post →
      (∀ l ∈ pre, firstField l ≠ name.data) →
      firstField line = name.data →
      (splitSep ':' line.data).length < 3 →
      user_group_id lines name = LoginResult.panicked)
    ∧ (user_group_id lines name = LoginResult.parseErr →
      ∃ line ∈ lines, firstField line = name.data
        ∧ 3 ≤ (splitSep ':' line.data).length) := by
  have hcond : ¬ isNumericName name = true := by
    rw [hnum]
    exact Bool.false_ne_true
  constructor
  · intro pre line post hlines hpre hmatch hlen
    unfold user_group_id
    rw [if_neg hcond, hlines]
    exact lookupLoop_panics name pre line post hpre hmatch hlen
  · intro h
    unfold user_group_id at h
    rw [if_neg hcond] at h
    exact lookupLoop_parseErr name lines h

/-- Witness for C10: the login database consisting of the single
malformed line bob:x makes the lookup of bob panic. -/
theorem claim_c10_login_lookup_witness :
    user_group_id ["bob:x"] "bob" = LoginResult.panicked :=
  (claim_c10_login_lookup ["bob:x"] "bob" (by decide)).1 [] "bob:x" [] rfl
    (by simp) (by decide) (by decide)

/-! ## VmSpec data model and user-data merge (src/vmspec.rs) -/

/-- Embedding of struct Security (src/vmspec.rs lines 381-387). -/
structure Security where
  readonly_root_fs : Option Bool
  run_as_group_id : Option Nat
  run_as_user_id : Option Nat
deriving DecidableEq

/-- Embedding of the Default impl for Security (src/vmspec.rs lines
389-397): readonly false, group 0, user 0, all present. -/
def Security.defaultSec : Security :=
  { readonly_root_fs := some false, run_as_group_id := some 0, run_as_user_id := some 0 }

/-- Embedding of Security::merge (src/vmspec.rs lines 399-411): fields
present in other overwrite. -/
def Security.merge (s : Security) (other : Security) : Security :=
  { readonly_root_fs :=
      if other.readonly_root_fs.isSome then other.readonly_root_fs else s.readonly_root_fs
    run_as_group_id :=
      if other.run_as_group_id.isSome then other.run_as_group_id else s.run_as_group_id
    run_as_user_id :=
      if other.run_as_user_id.isSome then other.run_as_user_id else s.run_as_user_id }

/-- Embedding of struct Mount (src/vmspec.rs lines 467-476). -/
structure Mount where
  destination : String
  fs_type : Option String
  group_id : Option Nat
  mode : Option String
  options : Option (List String)
  user_id : Option Nat
deriving DecidableEq

/-- Embedding of struct AwsTag (src/vmspec.rs lines 437-441). -/
structure AwsTag where
  key : String
  value : Option String
deriving DecidableEq

/-- Embedding of struct EbsVolumeAttachment (src/vmspec.rs lines 431-435). -/
structure EbsVolumeAttachment where
  tags : List AwsTag
  timeout : Option Nat
deriving DecidableEq

/-- Embedding of struct EbsVolumeSource (src/vmspec.rs lines 424-429). -/
structure EbsVolumeSource where
  attachment : Option EbsVolumeAttachment
  device : String
  mount : Option Mount
deriving DecidableEq

/-- Embedding of struct S3VolumeSource (src/vmspec.rs lines 443-450). -/
structure S3VolumeSource where
  bucket : String
  key_prefix : String
  optional : Option Bool
  mount : Mount
deriving DecidableEq

/-- Embedding of struct SecretsManagerVolumeSource (src/vmspec.rs lines
452-458). -/
structure SecretsManagerVolumeSource where
  secret_id : String
  mount : Mount
  optional : Option Bool
deriving DecidableEq

/-- Embedding of struct SsmVolumeSource (src/vmspec.rs lines 460-465). -/
structure SsmVolumeSource where
  path : String
  mount : Mount
  optional : Option Bool
deriving DecidableEq

/-- Embedding of enum Volume (src/vmspec.rs lines 413-420). -/
inductive Volume where
  | ebs (v : EbsVolumeSource)
  | s3 (v : S3VolumeSource)
  | secretsManager (v : SecretsManagerVolumeSource)
  | ssm (v : SsmVolumeSource)
deriving DecidableEq

/-- Embedding of struct ImdsEnvSource (src/vmspec.rs lines 346-351). -/
structure ImdsEnvSource where
  name : String
  optional : Option Bool
  path : String
deriving DecidableEq

/-- Embedding of struct S3EnvSource (src/vmspec.rs lines 353-361). -/
structure S3EnvSource where
  base64_encode : Option Bool
  bucket : String
  key : String
  name : Option String
  optional : Option Bool
deriving DecidableEq

/-- Embedding of struct SecretsManagerEnvSource (src/vmspec.rs lines
363-370). -/
structure SecretsManagerEnvSource where
  base64_encode : Option Bool
  name : Option String
  optional : Option Bool
  secret_id : String
deriving DecidableEq

/-- Embedding of struct SsmEnvSource (src/vmspec.rs lines 372-379). -/
structure SsmEnvSource where
  base64_encode : Option Bool
  name : Option String
  path : String
  optional : Option Bool
deriving DecidableEq

/-- Embedding of enum EnvFromSource (src/vmspec.rs lines 335-342). -/
inductive EnvFromSource where
  | imds (v : ImdsEnvSource)
  | s3 (v : S3EnvSource)
  | secretsManager (v : SecretsManagerEnvSource)
  | ssm (v : SsmEnvSource)
deriving DecidableEq

/-- Embedding of struct VmSpec (src/vmspec.rs lines 76-93). -/
structure VmSpec where
  args : List String
  command : List String
  debug : Bool
  disable_services : List String
  env : NameValues
  env_from : List EnvFromSource
  init_scripts : List String
  replace_init : Bool
  security : Security
  shutdown_grace_period : Nat
  sysctls : NameValues
  modules : List String
  volumes : List Volume
  working_dir : String
deriving DecidableEq

/-- Embedding of the Default impl for VmSpec (src/vmspec.rs lines
95-114). -/
def VmSpec.defaultSpec : VmSpec :=
  { args := [], command := [], debug := false, disable_services := []
    env := [], env_from := [], init_scripts := [], replace_init := false
    security := Security.defaultSec, shutdown_grace_period := 10
    sysctls := [], modules := [], volumes := [], working_dir := "/" }

/-- Embedding of struct UserData (src/vmspec.rs lines 45-62): every
field optional. -/
structure UserData where
  args : Option (List String)
  command : Option (List String)
  debug : Option Bool
  disable_services : Option (List String)
  env : Option NameValues
  env_from : Option (List EnvFromSource)
  init_scripts : Option (List String)
  replace_init : Option Bool
  security : Option Security
  shutdown_grace_period : Option Nat
  sysctls : Option NameValues
  modules : Option (List String)
  volumes : Option (List Volume)
  working_dir : Option String
deriving DecidableEq

/-- Empty user data: every field absent. -/
def UserData.emptyData : UserData :=
  { args := none, command := none, debug := none, disable_services := none
    env := none, env_from := none, init_scripts := none, replace_init := none
    security := none, shutdown_grace_period := none, sysctls := none
    modules := none, volumes := none, working_dir := none }

/-- Embedding of the per-volume body of VmSpec::update_defaults
(src/vmspec.rs lines 169-211): an EBS volume with a mount gets absent
group id, user id and mode filled from security and 0755; S3, Secrets
Manager and SSM mounts get absent group id and user id filled from
security, and their mode is left alone. -/
def Volume.updateDefault (sec : Security) : Volume → Volume
  | Volume.ebs e =>
    Volume.ebs { e with mount := e.mount.map (fun m0 =>
      let m1 := if m0.group_id.isNone
        then { m0 with group_id := sec.run_as_group_id } else m0
      let m2 := if m1.user_id.isNone
        then { m1 with user_id := sec.run_as_user_id } else m1
      if m2.mode.isNone then { m2 with mode := some "0755" } else m2) }
  | Volume.s3 s =>
    Volume.s3 { s with mount :=
      (let m1 := if s.mount.group_id.isNone
        then { s.mount with group_id := sec.run_as_group_id } else s.mount
       if m1.user_id.isNone then { m1 with user_id := sec.run_as_user_id } else m1) }
  | Volume.secretsManager s =>
    Volume.secretsManager { s with mount :=
      (let m1 := if s.mount.group_id.isNone
        then { s.mount with group_id := sec.run_as_group_id } else s.mount
       if m1.user_id.isNone then { m1 with user_id := sec.run_as_user_id } else m1) }
  | Volume.ssm s =>
    Volume.ssm { s with mount :=
      (let m1 := if s.mount.group_id.isNone
        then { s.mount with group_id := sec.run_as_group_id } else s.mount
       if m1.user_id.isNone then { m1 with user_id := sec.run_as_user_id } else m1) }

/-- Embedding of VmSpec::update_defaults (src/vmspec.rs lines 169-211):
apply the per-volume defaulting to every volume, reading security from
self. -/
def VmSpec.update_defaults (v : VmSpec) : VmSpec :=
  { v with volumes := v.volumes.map (Volume.updateDefault v.security) }

/-! Each mergeX function embeds one if-block of VmSpec::merge_user_data
(src/vmspec.rs lines 244-295), in source order. -/

def mergeArgs (o : UserData) (v : VmSpec) : VmSpec :=
  match o.args with
  | some a => { v with args := a }
  | none => v

/-- When command is overridden but args is not supplied, args is
cleared (src/vmspec.rs lines 248-255). -/
def mergeCommand (o : UserData) (v : VmSpec) : VmSpec :=
  match o.command with
  | some c =>
    let v2 := { v with command := c }
    if o.args.isNone then { v2 with args := [] } else v2
  | none => v

def mergeDebug (o : UserData) (v : VmSpec) : VmSpec :=
  match o.debug with
  | some d => { v with debug := d }
  | none => v

/-- disable_services is replaced only when present and nonempty
(src/vmspec.rs lines 259-263). -/
def mergeDisableServices (o : UserData) (v : VmSpec) : VmSpec :=
  match o.disable_services with
  | some ds => if ds ≠ [] then { v with disable_services := ds } else v
  | none => v

def mergeEnv (o : UserData) (v : VmSpec) : VmSpec :=
  match o.env with
  | some e => { v with env := NameValues.merge v.env e }
  | none => v

def mergeEnvFrom (o : UserData) (v : VmSpec) : VmSpec :=
  match o.env_from with
  | some ef => { v with env_from := ef }
  | none => v

def mergeInitScripts (o : UserData) (v : VmSpec) : VmSpec :=
  match o.init_scripts with
  | some is2 => { v with init_scripts := is2 }
  | none => v

def mergeReplaceInit (o : UserData) (v : VmSpec) : VmSpec :=
  match o.replace_init with
  | some r => { v with replace_init := r }
  | none => v

def mergeSecurity (o : UserData) (v : VmSpec) : VmSpec :=
  match o.security with
  | some s => { v with security := v.security.merge s }
  | none => v

def mergeShutdownGracePeriod (o : UserData) (v : VmSpec) : VmSpec :=
  match o.shutdown_grace_period with
  | some g => { v with shutdown_grace_period := g }
  | none => v

def mergeSysctls (o : UserData) (v : VmSpec) : VmSpec :=
  match o.sysctls with
  | some s => { v with sysctls := NameValues.merge v.sysctls s }
  | none => v

def mergeModules (o : UserData) (v : VmSpec) : VmSpec :=
  match o.modules with
  | some m => { v with modules := m }
  | none => v

def mergeVolumes (o : UserData) (v : VmSpec) : VmSpec :=
  match o.volumes with
  | some vols => { v with volumes := vols }
  | none => v

def mergeWorkingDir (o : UserData) (v : VmSpec) : VmSpec :=
  match o.working_dir with
  | some w => { v with working_dir := w }
  | none => v

/-- Embedding of VmSpec::merge_user_data (src/vmspec.rs lines 244-295):
the field merges in source order, and update_defaults at the end. -/
def VmSpec.merge_user_data (v : VmSpec) (other : UserData) : VmSpec :=
  VmSpec.update_defaults
    (mergeWorkingDir other (mergeVolumes other (mergeModules other (mergeSysctls other
      (mergeShutdownGracePeriod other (mergeSecurity other (mergeReplaceInit other
        (mergeInitScripts other (mergeEnvFrom other (mergeEnv other
          (mergeDisableServices other (mergeDebug other
            (mergeCommand other (mergeArgs other v))))))))))))))

/-- Mount descriptor carried by a volume, when any: every variant but
EBS always has one. -/
def Volume.mountOf : Volume → Option Mount
  | Volume.ebs e => e.mount
  | Volume.s3 s => some s.mount
  | Volume.secretsManager s => some s.mount
  | Volume.ssm s => some s.mount

/-- Amended defaulting rule, written from the corrected claim: absent
user and group ids are filled from security for every mount-bearing
volume; an absent mode is filled with 0755 for EBS mounts only, and
left absent for S3, Secrets Manager and SSM mounts. -/
def Volume.specApplyDefaults (sec : Security) : Volume → Volume
  | Volume.ebs e =>
    Volume.ebs { e with mount := e.mount.map (fun m =>
      { m with user_id := m.user_id.or sec.run_as_user_id
               group_id := m.group_id.or sec.run_as_group_id
               mode := m.mode.or (some "0755") }) }
  | Volume.s3 s =>
    Volume.s3 { s with mount :=
      { s.mount with user_id := s.mount.user_id.or sec.run_as_user_id
                     group_id := s.mount.group_id.or sec.run_as_group_id } }
  | Volume.secretsManager s =>
    Volume.secretsManager { s with mount :=
      { s.mount with user_id := s.mount.user_id.or sec.run_as_user_id
                     group_id := s.mount.group_id.or sec.run_as_group_id } }
  | Volume.ssm s =>
    Volume.ssm { s with mount :=
      { s.mount with user_id := s.mount.user_id.or sec.run_as_user_id
                     group_id := s.mount.group_id.or sec.run_as_group_id } }

theorem updateDefault_eq_spec (sec : Security) (vol : Volume) :
    Volume.updateDefault sec vol = Volume.specApplyDefaults sec vol := by
  cases vol with
  | ebs e =>
    cases hm : e.mount with
    | none => simp [Volume.updateDefault, Volume.specApplyDefaults, hm]
    | some m =>
      rcases m with ⟨dest, ft, gid, md, op, uid⟩
      cases gid <;> cases uid <;> cases md <;>
        simp [Volume.updateDefault, Volume.specApplyDefaults, hm, Option.or]
  | s3 s =>
    rcases s with ⟨bk, kp, opt, m⟩
    rcases m with ⟨dest, ft, gid, md, op, uid⟩
    cases gid <;> cases uid <;>
      simp [Volume.updateDefault, Volume.specApplyDefaults, Option.or]
  | secretsManager s =>
    rcases s with ⟨sid, m, opt⟩
    rcases m with ⟨dest, ft, gid, md, op, uid⟩
    cases gid <;> cases uid <;>
      simp [Volume.updateDefault, Volume.specApplyDefaults, Option.or]
  | ssm s =>
    rcases s with ⟨pth, m, opt⟩
    rcases m with ⟨dest, ft, gid, md, op, uid⟩
    cases gid <;> cases uid <;>
      simp [Volume.updateDefault, Volume.specApplyDefaults, Option.or]

theorem mergeArgs_volumes (o : UserData) (v : VmSpec) :
    (mergeArgs o v).volumes = v.volumes := by
  unfold mergeArgs
  cases o.args <;> rfl

theorem mergeCommand_volumes (o : UserData) (v : VmSpec) :
    (mergeCommand o v).volumes = v.volumes := by
  unfold mergeCommand
  cases o.command with
  | none => rfl
  | some c =>
    by_cases h : o.args.isNone = true <;> simp [h]

theorem mergeDebug_volumes (o : UserData) (v : VmSpec) :
    (mergeDebug o v).volumes = v.volumes := by
  unfold mergeDebug
  cases o.debug <;> rfl

theorem mergeDisableServices_volumes (o : UserData) (v : VmSpec) :
    (mergeDisableServices o v).volumes = v.volumes := by
  unfold mergeDisableServices
  cases o.disable_services with
  | none => rfl
  | some ds =>
    by_cases h : ds = [] <;> simp [h]

theorem mergeEnv_volumes (o : UserData) (v : VmSpec) :
    (mergeEnv o v).volumes = v.volumes := by
  unfold mergeEnv
  cases o.env <;> rfl

theorem mergeEnvFrom_volumes (o : UserData) (v : VmSpec) :
    (mergeEnvFrom o v).volumes = v.volumes := by
  unfold mergeEnvFrom
  cases o.env_from <;> rfl

theorem mergeInitScripts_volumes (o : UserData) (v : VmSpec) :
    (mergeInitScripts o v).volumes = v.volumes := by
  unfold mergeInitScripts
  cases o.init_scripts <;> rfl

theorem mergeReplaceInit_volumes (o : UserData) (v : VmSpec) :
    (mergeReplaceInit o v).volumes = v.volumes := by
  unfold mergeReplaceInit
  cases o.replace_init <;> rfl

theorem mergeSecurity_volumes (o : UserData) (v : VmSpec) :
    (mergeSecurity o v).volumes = v.volumes := by
  unfold mergeSecurity
  cases o.security <;> rfl

theorem mergeShutdownGracePeriod_volumes (o : UserData) (v : VmSpec) :
    (mergeShutdownGracePeriod o v).volumes = v.volumes := by
  unfold mergeShutdownGracePeriod
  cases o.shutdown_grace_period <;> rfl

theorem mergeSysctls_volumes (o : UserData) (v : VmSpec) :
    (mergeSysctls o v).volumes = v.volumes := by
  unfold mergeSysctls
  cases o.sysctls <;> rfl

theorem mergeModules_volumes (o : UserData) (v : VmSpec) :
    (mergeModules o v).volumes = v.volumes := by
  unfold mergeModules
  cases o.modules <;> rfl

theorem mergeVolumes_volumes (o : UserData) (v : VmSpec) :
    (mergeVolumes o v).volumes = o.volumes.getD v.volumes := by
  unfold mergeVolumes
  cases o.volumes <;> rfl

theorem mergeWorkingDir_volumes (o : UserData) (v : VmSpec) :
    (mergeWorkingDir o v).volumes = v.volumes := by
  unfold mergeWorkingDir
  cases o.working_dir <;> rfl

theorem mergeVolumes_security (o : UserData) (v : VmSpec) :
    (mergeVolumes o v).security = v.security := by
  unfold mergeVolumes
  cases o.volumes <;> rfl

theorem mergeWorkingDir_security (o : UserData) (v : VmSpec) :
    (mergeWorkingDir o v).security = v.security := by
  unfold mergeWorkingDir
  cases o.working_dir <;> rfl

theorem mergeModules_security (o : UserData) (v : VmSpec) :
    (mergeModules o v).security = v.security := by
  unfold mergeModules
  cases o.modules <;> rfl

theorem mergeSysctls_security (o : UserData) (v : VmSpec) :
    (mergeSysctls o v).security = v.security := by
  unfold mergeSysctls
  cases o.sysctls <;> rfl

theorem mergeShutdownGracePeriod_security (o : UserData) (v : VmSpec) :
    (mergeShutdownGracePeriod o v).security = v.security := by
  unfold mergeShutdownGracePeriod
  cases o.shutdown_grace_period <;> rfl

/-- Volumes of the merged spec: the user-data volumes replace wholesale
when present, and are then run through the per-volume defaulting with
the merged security. -/
theorem merge_user_data_volumes (v : VmSpec) (o : UserData) :
    (VmSpec.merge_user_data v o).volumes
      = (o.volumes.getD v.volumes).map
          (Volume.updateDefault (VmSpec.merge_user_data v o).security) := by
  unfold VmSpec.merge_user_data VmSpec.update_defaults
  simp only [mergeWorkingDir_volumes, mergeVolumes_volumes, mergeModules_volumes,
    mergeSysctls_volumes, mergeShutdownGracePeriod_volumes, mergeSecurity_volumes,
    mergeReplaceInit_volumes, mergeInitScripts_volumes, mergeEnvFrom_volumes,
    mergeEnv_volumes, mergeDisableServices_volumes, mergeDebug_volumes,
    mergeCommand_volumes, mergeArgs_volumes]

/-- Concrete spec used to refute C2 as stated: one S3 volume whose
mount has no user id, no group id and no mode. -/
def c2Mount : Mount :=
  { destination := "/dest", fs_type := none, group_id := none,
    mode := none, options := none, user_id := none }

/-- S3 volume carrying the mount above. -/
def c2S3 : S3VolumeSource :=
  { bucket := "b", key_prefix := "p", optional := none, mount := c2Mount }

/-- Spec holding that single S3 volume, with the default security. -/
def c2Spec : VmSpec :=
  { VmSpec.defaultSpec with volumes := [Volume.s3 c2S3] }

/-- Counterexample to C2 as stated: the S3 volume's mount mode is
absent before the merge, and after merge_user_data completes it is
still absent instead of 0755 — the 0755 default is applied to EBS
mounts only. The user and group ids are filled from security as
claimed. -/
theorem claim_c2_counterexample :
    c2Spec.volumes.map (fun vol => (Volume.mountOf vol).map Mount.mode)
      = [some none]
    ∧ (VmSpec.merge_user_data c2Spec UserData.emptyData).volumes.map
        (fun vol => (Volume.mountOf vol).map Mount.mode) = [some none]
    ∧ (VmSpec.merge_user_data c2Spec UserData.emptyData).volumes.map
        (fun vol => (Volume.mountOf vol).map
          (fun m => (m.user_id, m.group_id))) = [some (some 0, some 0)]
    ∧ some (none : Option String) ≠ some (some "0755") := by
  refine ⟨by decide, by decide, by decide, by decide⟩

/-- C2 amended: after merge_user_data completes, the volumes are
exactly the pre-merge volumes (user-data volumes when present, the
existing ones otherwise) with, for every mount-bearing volume, absent
user and group ids filled from the merged security run_as ids; an
absent mode is filled with 0755 for EBS mounts only, while S3, Secrets
Manager and SSM mounts keep an absent mode. -/
theorem claim_c2_mount_defaults (v : VmSpec) (o : UserData) :
    (VmSpec.merge_user_data v o).volumes
      = (o.volumes.getD v.volumes).map
          (Volume.specApplyDefaults (VmSpec.merge_user_data v o).security) := by
  rw [merge_user_data_volumes,
    funext (updateDefault_eq_spec (VmSpec.merge_user_data v o).security)]

/-! ## Subprocess handling in init steps (src/system.rs, src/init.rs,
src/vmspec.rs) -/

/-- Model of std::process::Output: the exit status code of a finished
subprocess, which the caller must inspect explicitly. -/
structure Output where
  status : Int
deriving DecidableEq, Repr

/-- Outcome of a fallible operation: an error message or a value. The
question-mark operator in Rust propagates the error case only. -/
abbrev OpResult (α : Type) := Except String α

/-- Model of rustix stat on the mkfs binary path: file absent (NOENT),
some other error, or success. -/
inductive StatResult where
  | noent
  | errOther (e : String)
  | found
deriving DecidableEq, Repr

/-- Embedding of VmSpec::run_init_script (src/vmspec.rs lines 151-167)
with each I/O effect outcome passed in explicitly: write the script
file, chmod it to 0755, run it via Command::output capturing an
Output, then remove the file. Only the error cases of the four effects
propagate; the captured Output, and with it the script's exit status,
is discarded. -/
def run_init_script (writeRes chmodRes : OpResult Unit)
    (runRes : OpResult Output) (removeRes : OpResult Unit) : OpResult Unit :=
  match writeRes with
  | Except.error e => Except.error e
  | Except.ok _ =>
    match chmodRes with
    | Except.error e => Except.error e
    | Except.ok _ =>
      match runRes with
      | Except.error e => Except.error e
      | Except.ok _out => removeRes

/-- Embedding of grow_filesystem (src/system.rs lines 291-298): spawn
resize2fs, wait for it collecting an Output, and return unit success;
the exit status in the Output is never inspected. -/
def grow_filesystem (spawnRes : OpResult Unit) (waitRes : OpResult Output) :
    OpResult Unit :=
  match spawnRes with
  | Except.error e => Except.error e
  | Except.ok _ =>
    match waitRes with
    | Except.error e => Except.error e
    | Except.ok _out => Except.ok ()

/-- Embedding of try_mkfs (src/init.rs lines 387-409): when the device
has no filesystem, stat the mkfs binary (absent means unsupported
filesystem, other stat errors propagate) and run it via
Command::output; the exit status in the captured Output is never
inspected. -/
def try_mkfs (hasFsRes : OpResult Bool) (statRes : StatResult)
    (mkfsRes : OpResult Output) : OpResult Unit :=
  match hasFsRes with
  | Except.error e => Except.error e
  | Except.ok true => Except.ok ()
  | Except.ok false =>
    match statRes with
    | StatResult.noent => Except.error "unsupported filesystem"
    | StatResult.errOther e => Except.error e
    | StatResult.found =>
      match mkfsRes with
      | Except.error e => Except.error e
      | Except.ok _out => Except.ok ()

/-- Counterexample to C1 as stated: a subprocess exit status of 1 —
nonzero — in mkfs, resize2fs and an init script leaves every one of
the three init-step runners returning success, so the nonzero exit is
not fatal. -/
theorem claim_c1_counterexample :
    grow_filesystem (Except.ok ()) (Except.ok { status := 1 }) = Except.ok ()
    ∧ try_mkfs (Except.ok false) StatResult.found (Except.ok { status := 1 })
        = Except.ok ()
    ∧ run_init_script (Except.ok ()) (Except.ok ()) (Except.ok { status := 1 })
        (Except.ok ()) = Except.ok ()
    ∧ (1 : Int) ≠ 0 :=
  ⟨rfl, rfl, rfl, by decide⟩

/-- C1 amended: a failure to spawn or wait on the subprocess is fatal
in each of the three init steps, but the subprocess exit status is
ignored: whatever status mkfs, resize2fs or the init script exits
with, the step reports success when the surrounding I/O succeeded. -/
theorem claim_c1_subprocess_exit (s : Int) (e : String) :
    grow_filesystem (Except.ok ()) (Except.ok { status := s }) = Except.ok ()
    ∧ grow_filesystem (Except.error e) (Except.ok { status := s }) = Except.error e
    ∧ try_mkfs (Except.ok false) StatResult.found (Except.ok { status := s })
        = Except.ok ()
    ∧ try_mkfs (Except.ok false) StatResult.found (Except.error e) = Except.error e
    ∧ try_mkfs (Except.ok false) StatResult.noent (Except.ok { status := s })
        = Except.error "unsupported filesystem"
    ∧ run_init_script (Except.ok ()) (Except.ok ()) (Except.ok { status := s })
        (Except.ok ()) = Except.ok ()
    ∧ run_init_script (Except.ok ()) (Except.ok ()) (Except.error e) (Except.ok ())
        = Except.error e :=
  ⟨rfl, rfl, rfl, rfl, rfl, rfl, rfl⟩

/-! ## DHCP receive loop (src/dhcp.rs) -/

/-- Model of the std::io::ErrorKind values distinguished by the DHCP
receive loop. -/
inductive ErrorKind where
  | wouldBlock
  | timedOut
  | otherKind
deriving DecidableEq, Repr

/-- Embedding of is_error_retryable (src/dhcp.rs lines 282-285): a
receive error is retryable when its kind is WouldBlock or TimedOut. -/
def is_error_retryable (k : ErrorKind) : Bool :=
  decide (k = ErrorKind.wouldBlock) || decide (k = ErrorKind.timedOut)

/-- DHCP message types relevant to the client. -/
inductive MsgType where
  | discover
  | offer
  | request
  | ack
  | nak
deriving DecidableEq, Repr

/-- Model of a decoded DHCP message: its transaction id and the
message-type option carried in its options, when present. -/
structure DhcpMessage where
  xid : Nat
  msgType : Option MsgType
deriving DecidableEq, Repr

/-- Model of Options::has_msg_type: the message carries the given
message type. -/
def DhcpMessage.hasMsgType (m : DhcpMessage) (t : MsgType) : Bool :=
  m.msgType = some t

/-- One socket receive outcome: a datagram that decoded to a message or
failed to decode, or a receive error of some kind. -/
inductive RecvEvent where
  | received (decoded : Option DhcpMessage)
  | recvErr (kind : ErrorKind)
deriving DecidableEq, Repr

/-- One iteration of the receive loop: the receive outcome together
with the value of start.elapsed(), in milliseconds, observed at that
iteration. -/
structure TraceStep where
  event : RecvEvent
  elapsed_ms : Nat
deriving DecidableEq, Repr

/-- Result of the wait: the matching message, the 10 second timeout
error, or a fatal non-retryable receive error. -/
inductive WaitResult where
  | gotMsg (m : DhcpMessage)
  | timedOut
  | fatal (kind : ErrorKind)
deriving DecidableEq, Repr

/-- Embedding of wait_for_dhcp_message (src/dhcp.rs lines 243-280) over
a finite trace of receive outcomes: a decoded message is returned only
when its xid matches and it carries the expected message type,
anything else received is discarded and the loop continues; a
retryable receive error checks the 10 second deadline and otherwise
backs off and continues; a non-retryable error is fatal. The loop
never exits on its own, so an exhausted trace yields none. -/
def wait_for_dhcp_message (xid : Nat) (mt : MsgType) :
    List TraceStep → Option WaitResult
  | [] => none
  | step :: rest =>
    match step.event with
    | RecvEvent.received (some m) =>
      if m.xid = xid ∧ m.hasMsgType mt = true then some (WaitResult.gotMsg m)
      else wait_for_dhcp_message xid mt rest
    | RecvEvent.received none => wait_for_dhcp_message xid mt rest
    | RecvEvent.recvErr k =>
      if is_error_retryable k then
        if 10000 ≤ step.elapsed_ms then some WaitResult.timedOut
        else wait_for_dhcp_message xid mt rest
      else some (WaitResult.fatal k)

theorem wait_returns_only_matching (xid : Nat) (mt : MsgType) :
    ∀ (trace : List TraceStep) (m : DhcpMessage),
      wait_for_dhcp_message xid mt trace = some (WaitResult.gotMsg m) →
      m.xid = xid ∧ m.hasMsgType mt = true := by
  intro trace
  induction trace with
  | nil =>
    intro m h
    exact absurd h (by simp [wait_for_dhcp_message])
  | cons step rest ih =>
    intro m h
    simp only [wait_for_dhcp_message] at h
    split at h
    · next m2 heq =>
      by_cases hc : m2.xid = xid ∧ m2.hasMsgType mt = true
      · rw [if_pos hc] at h
        injection h with h2
        injection h2 with h3
        subst h3
        exact hc
      · rw [if_neg hc] at h
        exact ih m h
    · exact ih m h
    · next k heq =>
      by_cases hr : is_error_retryable k = true
      · rw [if_pos hr] at h
        by_cases ht : 10000 ≤ step.elapsed_ms
        · rw [if_pos ht] at h
          exact absurd h (by simp)
        · rw [if_neg ht] at h
          exact ih m h
      · rw [if_neg hr] at h
        exact absurd h (by simp)

theorem wait_discards_nonmatching (xid : Nat) (mt : MsgType)
    (step : TraceStep) (rest : List TraceStep)
    (hdisc : step.event = RecvEvent.received none
      ∨ ∃ m, step.event = RecvEvent.received (some m)
          ∧ ¬ (m.xid = xid ∧ m.hasMsgType mt = true)) :
    wait_for_dhcp_message xid mt (step :: rest)
      = wait_for_dhcp_message xid mt rest := by
  simp only [wait_for_dhcp_message]
  split
  · next m2 heq =>
    rcases hdisc with h1 | ⟨m, h2, hnm⟩
    · rw [heq] at h1
      exact absurd h1 (by simp)
    · rw [heq] at h2
      injection h2 with h3
      injection h3 with h4
      subst h4
      rw [if_neg hnm]
  · rfl
  · next k heq =>
    rcases hdisc with h1 | ⟨m, h2, hnm⟩
    · rw [heq] at h1
      exact absurd h1 (by simp)
    · rw [heq] at h2
      exact absurd h2 (by simp)

theorem wait_times_out (xid : Nat) (mt : MsgType) :
    ∀ (trace : List TraceStep),
      (∀ step ∈ trace, ∃ k, step.event = RecvEvent.recvErr k
        ∧ is_error_retryable k = true) →
      (∃ step ∈ trace, 10000 ≤ step.elapsed_ms) →
      wait_for_dhcp_message xid mt trace = some WaitResult.timedOut := by
  intro trace
  induction trace with
  | nil =>
    intro _ hex
    rcases hex with ⟨step, hmem, _⟩
    exact absurd hmem (List.not_mem_nil step)
  | cons step rest ih =>
    intro hall hex
    obtain ⟨k, hk, hrk⟩ := hall step (List.mem_cons_self step rest)
    simp only [wait_for_dhcp_message]
    split
    · next m2 heq =>
      rw [heq] at hk
      exact absurd hk (by simp)
    · next heq =>
      rw [heq] at hk
      exact absurd hk (by simp)
    · next k2 heq =>
      have hk2 : k2 = k := by
        rw [heq] at hk
        injection hk
      rw [if_pos (hk2 ▸ hrk)]
      by_cases ht : 10000 ≤ step.elapsed_ms
      · rw [if_pos ht]
      · rw [if_neg ht]
        rcases hex with ⟨s2, hmem, hel⟩
        rcases List.mem_cons.mp hmem with heq2 | hmem2
        · rw [← heq2] at ht
          exact absurd hel ht
        · exact ih (fun s hs => hall s (List.mem_cons_of_mem _ hs)) ⟨s2, hmem2, hel⟩

/-- C4: the wait loop returns only a decoded message whose transaction
id equals the sent xid and which carries the expected message type;
any datagram with a non-matching xid, a wrong message type, or that
fails to decode is silently discarded and waiting continues; when
every receive outcome is a retryable timeout and one of them observes
10 or more elapsed seconds, the wait fails with the timeout error. -/
theorem claim_c4_dhcp_wait (xid : Nat) (mt : MsgType) (trace : List TraceStep) :
    (∀ m, wait_for_dhcp_message xid mt trace = some (WaitResult.gotMsg m) →
      m.xid = xid ∧ m.hasMsgType mt = true)
    ∧ (∀ step rest, trace = step :: rest →
        (step.event = RecvEvent.received none
          ∨ ∃ m, step.event = RecvEvent.received (some m)
              ∧ ¬ (m.xid = xid ∧ m.hasMsgType mt = true)) →
        wait_for_dhcp_message xid mt trace = wait_for_dhcp_message xid mt rest)
    ∧ ((∀ step ∈ trace, ∃ k, step.event = RecvEvent.recvErr k
          ∧ is_error_retryable k = true) →
        (∃ step ∈ trace, 10000 ≤ step.elapsed_ms) →
        wait_for_dhcp_message xid mt trace = some WaitResult.timedOut) := by
  refine ⟨wait_returns_only_matching xid mt trace, ?_, wait_times_out xid mt trace⟩
  intro step rest htr hdisc
  subst htr
  exact wait_discards_nonmatching xid mt step rest hdisc

/-- Witness for C4: a trace of two retryable receive timeouts, the
second observing 11 elapsed seconds, makes the wait fail with the
timeout error. -/
theorem claim_c4_dhcp_wait_witness :
    wait_for_dhcp_message 7 MsgType.offer
      [{ event := RecvEvent.recvErr ErrorKind.wouldBlock, elapsed_ms := 3000 },
       { event := RecvEvent.recvErr ErrorKind.timedOut, elapsed_ms := 11000 }]
      = some WaitResult.timedOut :=
  (claim_c4_dhcp_wait 7 MsgType.offer
    [{ event := RecvEvent.recvErr ErrorKind.wouldBlock, elapsed_ms := 3000 },
     { event := RecvEvent.recvErr ErrorKind.timedOut, elapsed_ms := 11000 }]).2.2
    (by
      intro step hs
      rcases List.mem_cons.mp hs with heq | hs2
      · exact ⟨ErrorKind.wouldBlock, by rw [heq], by decide⟩
      · rcases List.mem_cons.mp hs2 with heq | hs3
        · exact ⟨ErrorKind.timedOut, by rw [heq], by decide⟩
        · exact absurd hs3 (List.not_mem_nil step))
    ⟨{ event := RecvEvent.recvErr ErrorKind.timedOut, elapsed_ms := 11000 },
      by simp, by decide⟩
